import Mathlib

/-!
Formal model of the RBI IFSC-directory sync script (`src/main.py`).

The script scrapes a status page for an "updated as on <date>" marker,
compares it with a persisted watermark, downloads spreadsheet files,
and inserts parsed records into an Appwrite collection, deduplicating
on the `IFSC` field.  External collaborators (HTTP, HTML parsing,
pandas, the Appwrite SDK, Telegram) are modelled as explicit inputs;
the control flow, string manipulation and store interaction of the
script itself are translated directly.
-/

namespace IfscDb

/-- A Python value as it can appear in a parsed spreadsheet record.
`none` models Python `None`; numeric cells are modelled as integers
(`str` of an integer agrees between Python and Lean). -/
inductive PyValue
  | none
  | str (s : String)
  | int (n : Int)
deriving DecidableEq, Repr

/-- Python `str()` applied to a record value. -/
def pyStr : PyValue → String
  | .none => "None"
  | .str s => s
  | .int n => toString n

/-- A parsed spreadsheet row: a mapping from column names to values
(`df.to_dict('records')` yields one dict per row). -/
abbrev Record := List (String × PyValue)

/-- Python `dict.get(key)` returning `None` when absent: first binding wins. -/
def rget : Record → String → Option PyValue
  | [], _ => Option.none
  | (k, v) :: rest, key => if k = key then Option.some v else rget rest key

/-- A stored document's attribute map (string attributes only, as built
by `insert_into_appwrite`). -/
abbrev Doc := List (String × String)

/-- Attribute lookup on a document. -/
def dGet : Doc → String → Option String
  | [], _ => Option.none
  | (k, v) :: rest, key => if k = key then Option.some v else dGet rest key

/-- The `document_data` dictionary built by `insert_into_appwrite`
(src/main.py lines 96-106): each of the nine expected fields is
`str(record.get(KEY, ''))`. -/
def documentData (r : Record) : Doc :=
  [("BANK", pyStr ((rget r "BANK").getD (.str ""))),
   ("IFSC", pyStr ((rget r "IFSC").getD (.str ""))),
   ("BRANCH", pyStr ((rget r "BRANCH").getD (.str ""))),
   ("ADDRESS", pyStr ((rget r "ADDRESS").getD (.str ""))),
   ("CITY1", pyStr ((rget r "CITY1").getD (.str ""))),
   ("CITY2", pyStr ((rget r "CITY2").getD (.str ""))),
   ("STATE", pyStr ((rget r "STATE").getD (.str ""))),
   ("STD_CODE", pyStr ((rget r "STD CODE").getD (.str ""))),
   ("PHONE", pyStr ((rget r "PHONE").getD (.str "")))]

/-- The nine expected fields, as pairs of
(document attribute name, record key looked up). -/
def expectedFields : List (String × String) :=
  [("BANK", "BANK"), ("IFSC", "IFSC"), ("BRANCH", "BRANCH"),
   ("ADDRESS", "ADDRESS"), ("CITY1", "CITY1"), ("CITY2", "CITY2"),
   ("STATE", "STATE"), ("STD_CODE", "STD CODE"), ("PHONE", "PHONE")]

/-- Calendar date, as produced by `datetime.strptime(.., '%B %d, %Y')`
(time-of-day is always midnight and is omitted). -/
structure Date where
  year : Nat
  month : Nat
  day : Nat
deriving DecidableEq, Repr

/-- Python `datetime` comparison restricted to dates: lexicographic on
(year, month, day). -/
def dateLt (a b : Date) : Bool :=
  decide (a.year < b.year ∨ (a.year = b.year ∧
    (a.month < b.month ∨ (a.month = b.month ∧ a.day < b.day))))

/-- Zero-pad to two digits, as `datetime.isoformat` does for month/day. -/
def pad2 (n : Nat) : String :=
  if n < 10 then "0" ++ toString n else toString n

/-- Zero-pad to four digits, as `datetime.isoformat` does for the year. -/
def pad4 (n : Nat) : String :=
  if n < 10 then "000" ++ toString n
  else if n < 100 then "00" ++ toString n
  else if n < 1000 then "0" ++ toString n
  else toString n

/-- `date.isoformat()` of a midnight datetime. -/
def isoformat (d : Date) : String :=
  pad4 d.year ++ "-" ++ pad2 d.month ++ "-" ++ pad2 d.day ++ "T00:00:00"

/-- Fixed base path for spreadsheet downloads (src/main.py line 34). -/
def BASE_URL : String := "https://rbidocs.rbi.org.in/rdocs/Content/DOCs/"

/-- The status page URL (src/main.py line 33). -/
def MAIN_URL : String := "https://m.rbi.org.in//scripts/bs_viewcontent.aspx?Id=2009"

/-- `l1` is a prefix of `l2` (computable, used for substring and
suffix tests). -/
def isPrefixOfB : List Char → List Char → Bool
  | [], _ => true
  | _ :: _, [] => false
  | a :: as, b :: bs => a == b && isPrefixOfB as bs

/-- Python `s.endswith(post)`. -/
def strEndsWith (s post : String) : Bool :=
  isPrefixOfB post.data.reverse s.data.reverse

/-- Python `s.split(sep)` for a one-character separator: splits at every
occurrence, keeping empty pieces, and returns `[""]` for the empty
string. -/
def splitOnChar (sep : Char) : List Char → List (List Char)
  | [] => [[]]
  | c :: cs =>
    let r := splitOnChar sep cs
    if c == sep then [] :: r
    else
      match r with
      | [] => [[c]]
      | h :: t => (c :: h) :: t

/-- Python `href.split('/')[-1]`: the final component of the href
(`split` never returns an empty list, so `[-1]` is total). -/
def lastComponent (href : String) : String :=
  String.mk ((splitOnChar '/' href.data).getLastD [])

/-- `get_excel_links` (src/main.py lines 64-73).  The fetched page is
abstracted to the list of its anchor elements in document order, each
carrying an optional `href` (BeautifulSoup passes `None` to the filter
for href-less anchors, and `href and href.endswith('.xlsx')` rejects
those).  A fetch or parse failure is the `none` input and yields `[]`. -/
def get_excel_links (page : Option (List (Option String))) : List String :=
  match page with
  | .none => []
  | .some anchors =>
    ((anchors.filterMap id).filter (fun h => strEndsWith h ".xlsx")).map
      (fun h => BASE_URL ++ lastComponent h)

/-- Modelled from the spec: "selects every hyperlink whose target path
ends in the spreadsheet file extension; rewrites each to an absolute URL
by taking only the filename component and prefixing a fixed base content
path. Returns an ordered sequence of URLs, possibly empty. Fails soft to
empty sequence on any fetch/parse error."  Stated as a single pass for
comparison with the source translation. -/
def linkExtractorSpec (page : Option (List (Option String))) : List String :=
  match page with
  | .none => []
  | .some anchors =>
    anchors.foldr (fun a acc =>
      match a with
      | Option.some href =>
        if strEndsWith href ".xlsx" then (BASE_URL ++ lastComponent href) :: acc
        else acc
      | Option.none => acc) []

/-- Appwrite `update_document` with a partial attribute map: attributes
named in `data` are overwritten (or added), all others keep their
values. -/
def setField : Doc → String → String → Doc
  | [], k, v => [(k, v)]
  | (k1, v1) :: rest, k, v =>
    if k1 = k then (k, v) :: rest else (k1, v1) :: setField rest k v

/-- Apply a partial update (field list) to a document, left to right. -/
def applyUpdate (doc : Doc) (data : Doc) : Doc :=
  data.foldl (fun d kv => setField d kv.1 kv.2) doc

/-- The data written by `update_status` (src/main.py lines 126-136):
the status flag and a fresh last-modified timestamp. -/
def update_status_data (status now : String) : Doc :=
  [("status", status), ("last_updated", now)]

/-- The data written by `set_last_update_date` (src/main.py lines
150-160): only the watermark date. -/
def set_last_update_date_data (d : Date) : Doc :=
  [("last_update_date", isoformat d)]

/-- Python `\w` on ASCII text: letters, digits, underscore. -/
def isWordChar (c : Char) : Bool := c.isAlphanum || c == '_'

/-- Python `\d` on ASCII text. -/
def isDigitChar (c : Char) : Bool := c.isDigit

/-- Attempt to match the regex `\w+ \d+, \d{4}` at the start of `cs`,
returning the three captured pieces (word, day digits, the four year
digits).  Because `\w` excludes the space and `\d` excludes the comma,
the greedy runs of the Python regex need no backtracking and equal the
maximal `takeWhile` runs. -/
def matchAt (cs : List Char) : Option (List Char × List Char × List Char) :=
  match cs.takeWhile isWordChar, cs.dropWhile isWordChar with
  | w0 :: wt, ' ' :: r2 =>
    (match r2.takeWhile isDigitChar, r2.dropWhile isDigitChar with
     | d0 :: dt, ',' :: ' ' :: y1 :: y2 :: y3 :: y4 :: _ =>
       if isDigitChar y1 && isDigitChar y2 && isDigitChar y3 && isDigitChar y4
       then Option.some (w0 :: wt, d0 :: dt, [y1, y2, y3, y4])
       else Option.none
     | _, _ => Option.none)
  | _, _ => Option.none

/-- Python `re.search(r'(\w+ \d+, \d{4})', text)`: the match at the
leftmost position where one exists. -/
def firstDateMatch : List Char → Option (List Char × List Char × List Char)
  | [] => Option.none
  | c :: cs =>
    match matchAt (c :: cs) with
    | Option.some m => Option.some m
    | Option.none => firstDateMatch cs

/-- Substring containment (`re.compile(r'updated as on')` searched in a
text node is a plain substring test; the pattern has no metacharacters). -/
def containsSub (needle : List Char) : List Char → Bool
  | [] => needle.isEmpty
  | c :: cs => isPrefixOfB needle (c :: cs) || containsSub needle cs

/-- The freshness-marker pattern searched for by `get_update_date`. -/
def updatePhrase : List Char := "updated as on".data

/-- The English month names recognised by `strptime`'s `%B` (matched
case-insensitively, full names only). -/
def monthNames : List (List Char) :=
  ["january".data, "february".data, "march".data, "april".data,
   "may".data, "june".data, "july".data, "august".data,
   "september".data, "october".data, "november".data, "december".data]

/-- Case-fold a token the way `%B`'s IGNORECASE matching does. -/
def toLowerList (cs : List Char) : List Char := cs.map Char.toLower

/-- `%B`: the whole token must be a month name (case-insensitively);
returns the month number 1..12. -/
def parseMonth (cs : List Char) : Option Nat :=
  (monthNames.findIdx? (fun n => n == toLowerList cs)).map (· + 1)

/-- Numeric value of a digit string. -/
def digitsToNat (cs : List Char) : Nat :=
  cs.foldl (fun acc c => acc * 10 + (c.toNat - 48)) 0

/-- `%d`: Python's `_strptime` day regex is `3[01]|[12]\d|0[1-9]|[1-9]`
and must consume the whole day token (the next format character is a
comma, which no digit matches): one or two digits with value 1..31. -/
def parseDay (cs : List Char) : Option Nat :=
  if cs.all isDigitChar && (cs.length == 1 || cs.length == 2)
      && 1 ≤ digitsToNat cs && digitsToNat cs ≤ 31
  then Option.some (digitsToNat cs)
  else Option.none

/-- `%Y`: exactly four digits; `datetime` additionally requires
`year >= MINYEAR = 1`. -/
def parseYear (cs : List Char) : Option Nat :=
  if cs.length == 4 && cs.all isDigitChar && 1 ≤ digitsToNat cs
  then Option.some (digitsToNat cs)
  else Option.none

/-- Gregorian leap-year rule used by `datetime`. -/
def isLeapYear (y : Nat) : Bool :=
  (y % 4 == 0 && !(y % 100 == 0)) || y % 400 == 0

/-- Days in a month, as validated by the `datetime` constructor. -/
def daysInMonth (y m : Nat) : Nat :=
  if m == 2 then (if isLeapYear y then 29 else 28)
  else if m == 4 || m == 6 || m == 9 || m == 11 then 30
  else 31

/-- `datetime.strptime(date_str, '%B %d, %Y')` on the three captured
pieces: `None` (modelled as `Option.none`, the caught `ValueError`) on
any malformed piece or an impossible calendar date. -/
def strptimeBDY (m d y : List Char) : Option Date :=
  match parseMonth m, parseDay d, parseYear y with
  | Option.some mv, Option.some dv, Option.some yv =>
    if dv ≤ daysInMonth yv mv then Option.some ⟨yv, mv, dv⟩ else Option.none
  | _, _, _ => Option.none

/-- `get_update_date` (src/main.py lines 51-62).  The fetched page is
abstracted to the ordered list of its text nodes (`none` = network
error or non-success status).  `soup.find(string=re.compile(...))`
returns the first text node containing the phrase; the date regex is
then searched in that whole node; every failure path (no node, no
regex match — the `.group(1)` AttributeError — or a strptime
ValueError) is caught and yields `None`. -/
def get_update_date (page : Option (List (List Char))) : Option Date :=
  match page with
  | Option.none => Option.none
  | Option.some texts =>
    match texts.find? (fun t => containsSub updatePhrase t) with
    | Option.none => Option.none
    | Option.some t =>
      match firstDateMatch t with
      | Option.none => Option.none
      | Option.some (m, d, y) => strptimeBDY m d y

/-- One operation against the Appwrite database service, as issued by
the script. -/
inductive StoreOp
  | listDocs (field value : String)
  | createDoc (data : Doc)
  | updateDoc (docId : String) (data : Doc)
  | getDoc (docId : String)
deriving DecidableEq, Repr

/-- `databases.list_documents(..., [Query.equal('IFSC', v)])['total']`:
how many stored documents carry attribute `IFSC = v`. -/
def countMatching (store : List Doc) (v : String) : Nat :=
  (store.filter (fun doc => decide (dGet doc "IFSC" = Option.some v))).length

/-- Result of a batch run of the Ingestion Engine: the returned
`new_records` count, the store after the run, and the store operations
performed, in order. -/
structure RunResult where
  count : Nat
  store : List Doc
  ops : List StoreOp

/-- The natural-key value the script queries and stores for a record:
`document_data['IFSC']`. -/
def ifscOf (r : Record) : String :=
  pyStr ((rget r "IFSC").getD (.str ""))

/-- `insert_into_appwrite` (src/main.py lines 92-124) with every store
operation succeeding: for each record, build `document_data`, count
existing documents with the same `IFSC`, and create the document only
when that count is zero, incrementing `new_records`. -/
def insert_into_appwrite : List Record → List Doc → RunResult
  | [], st => ⟨0, st, []⟩
  | r :: rest, st =>
    let d := documentData r
    if countMatching st (ifscOf r) = 0 then
      let res := insert_into_appwrite rest (st ++ [d])
      ⟨res.count + 1, res.store, .listDocs "IFSC" (ifscOf r) :: .createDoc d :: res.ops⟩
    else
      let res := insert_into_appwrite rest st
      ⟨res.count, res.store, .listDocs "IFSC" (ifscOf r) :: res.ops⟩

/-- `insert_into_appwrite` with per-record failure injection: `fails i`
means processing of the i-th record raises somewhere inside its
`try` block (malformed data, a failing `list_documents`, or a failing
`create_document`).  The exception is caught by the per-record
`except`, so a failing record leaves count and store untouched and the
loop continues; a record whose `create_document` raises creates
nothing, so a failed record performs no effective store mutation (its
ops are omitted here). -/
def insertWithFailures : List Record → (Nat → Bool) → List Doc → RunResult
  | [], _, st => ⟨0, st, []⟩
  | r :: rest, fails, st =>
    if fails 0 then
      insertWithFailures rest (fun i => fails (i + 1)) st
    else
      let d := documentData r
      if countMatching st (ifscOf r) = 0 then
        let res := insertWithFailures rest (fun i => fails (i + 1)) (st ++ [d])
        ⟨res.count + 1, res.store,
          .listDocs "IFSC" (ifscOf r) :: .createDoc d :: res.ops⟩
      else
        let res := insertWithFailures rest (fun i => fails (i + 1)) st
        ⟨res.count, res.store, .listDocs "IFSC" (ifscOf r) :: res.ops⟩

/-- The records that survive the failure oracle (those actually
processed to completion). -/
def survivors : List Record → (Nat → Bool) → List Record
  | [], _ => []
  | r :: rest, fails =>
    if fails 0 then survivors rest (fun i => fails (i + 1))
    else r :: survivors rest (fun i => fails (i + 1))

/-- Is this operation a `create_document`? -/
def isCreateOp : StoreOp → Bool
  | .createDoc _ => true
  | _ => false

/-- Does this operation write the watermark (`last_update_date`)? -/
def isWMOp : StoreOp → Bool
  | .updateDoc _ data => data.any (fun kv => kv.1 == "last_update_date")
  | _ => false

/-- Number of `create_document` operations in a trace. -/
def countCreates (ops : List StoreOp) : Nat :=
  (ops.filter isCreateOp).length

/-- Number of `create_document` operations whose document carries
`IFSC = v`. -/
def createsFor (v : String) (ops : List StoreOp) : Nat :=
  (ops.filter (fun op =>
    match op with
    | .createDoc d => decide (dGet d "IFSC" = Option.some v)
    | _ => false)).length

/-- `noWMBeforeCreate ops = true` iff no watermark write is followed
(strictly later in the trace) by a `create_document`. -/
def noWMBeforeCreate : List StoreOp → Bool
  | [] => true
  | op :: rest =>
    (!isWMOp op || !rest.any isCreateOp) && noWMBeforeCreate rest

/-- `noCreateBeforeWM ops = true` iff no `create_document` is followed
(strictly later in the trace) by a watermark write. -/
def noCreateBeforeWM : List StoreOp → Bool
  | [] => true
  | op :: rest =>
    (!isCreateOp op || !rest.any isWMOp) && noCreateBeforeWM rest

/-- An externally observable action of one pipeline run. -/
inductive Event
  | store (op : StoreOp)
  | tg (msg : String) (delivered : Bool)
  | httpFetch (url : String)
deriving DecidableEq, Repr

/-- The store operations of an event trace, in order. -/
def storeOps (es : List Event) : List StoreOp :=
  es.filterMap (fun e =>
    match e with
    | .store op => Option.some op
    | _ => Option.none)

/-- The environment one pipeline run executes in: the status-document
id, the successive `datetime.now()` renderings, the result of the two
status-page scrapes, the persisted watermark read, and the
download+parse outcome per spreadsheet URL (`none` = download failed,
`some rs` = parsed records; a parse failure is `some []`). -/
structure World where
  statusDocId : String
  now : Nat → String
  pageDate : Option Date
  lastDate : Option Date
  links : List String
  download : String → Option (List Record)

/-- Mutable state threaded through one run of `main`: the event trace,
the document store, and counters for Telegram sends and
`datetime.now()` calls. -/
structure MainState where
  events : List Event
  store : List Doc
  tgIdx : Nat
  nowIdx : Nat

/-- Append one event. -/
def emit (e : Event) (s : MainState) : MainState :=
  { s with events := s.events ++ [e] }

/-- `send_telegram_message` (src/main.py lines 44-49): the send is
attempted; delivery success is `tgOk` of the send's index; a delivery
failure is caught and ignored, so the function returns either way. -/
def send_telegram_message (tgOk : Nat → Bool) (msg : String)
    (s : MainState) : MainState :=
  { s with events := s.events ++ [.tg msg (tgOk s.tgIdx)],
           tgIdx := s.tgIdx + 1 }

/-- `update_status` (src/main.py lines 126-136): one partial update of
the status document with a fresh timestamp. -/
def update_status (w : World) (status : String) (s : MainState) : MainState :=
  let op : Event :=
    .store (.updateDoc w.statusDocId (update_status_data status (w.now s.nowIdx)))
  { s with events := s.events ++ [op], nowIdx := s.nowIdx + 1 }

/-- `set_last_update_date` (src/main.py lines 150-160): one partial
update of the status document carrying only the watermark. -/
def set_last_update_date (w : World) (d : Date) (s : MainState) : MainState :=
  let op : Event := .store (.updateDoc w.statusDocId (set_last_update_date_data d))
  { s with events := s.events ++ [op] }

/-- The per-file loop of `main` (src/main.py lines 175-188): announce
the file, download it, and either ingest the parsed records or report
the download failure. -/
def processLinks (w : World) (tgOk : Nat → Bool) :
    List String → MainState → MainState
  | [], s => s
  | link :: rest, s =>
    let s1 := send_telegram_message tgOk ("Processing file: " ++ link) s
    let s2 := emit (.httpFetch link) s1
    match w.download link with
    | Option.some data =>
      let r := insert_into_appwrite data s2.store
      let s3 := { s2 with events := s2.events ++ r.ops.map Event.store,
                          store := r.store }
      let s4 := send_telegram_message tgOk
        ("Completed processing " ++ link ++ ". New records added: "
          ++ toString r.count) s3
      processLinks w tgOk rest s4
    | Option.none =>
      let s3 := send_telegram_message tgOk
        ("Failed to download file: " ++ link) s2
      processLinks w tgOk rest s3

/-- The branch condition of `main`:
`current_update_date and (not last_update_date or current_update_date > last_update_date)`. -/
def newUpdateDetected (cur last : Option Date) : Bool :=
  match cur with
  | Option.none => false
  | Option.some c =>
    match last with
    | Option.none => true
    | Option.some l => dateLt l c

/-- `main` (src/main.py lines 162-195): set status to running, announce
the start, scrape the update date, read the watermark, and either run
the update branch (announce, write the new watermark, enumerate links,
process each file, announce completion) or announce that there is no
new update; finally set status to idle and announce the end. -/
def main (w : World) (tgOk : Nat → Bool) (store0 : List Doc) : MainState :=
  let s0 : MainState := ⟨[], store0, 0, 0⟩
  let s1 := update_status w "running" s0
  let s2 := send_telegram_message tgOk "Script started running." s1
  let s3 := emit (.httpFetch MAIN_URL) s2
  let s4 := emit (.store (.getDoc w.statusDocId)) s3
  let s5 :=
    match w.pageDate with
    | Option.some cur =>
      if (match w.lastDate with
          | Option.none => true
          | Option.some l => dateLt l cur) then
        let a1 := send_telegram_message tgOk
          ("New update found: " ++ isoformat cur) s4
        let a2 := set_last_update_date w cur a1
        let a3 := emit (.httpFetch MAIN_URL) a2
        let a4 := processLinks w tgOk w.links a3
        send_telegram_message tgOk "All files processed." a4
      else
        let b1 := send_telegram_message tgOk
          ("No new updates as of " ++ w.now s4.nowIdx) s4
        { b1 with nowIdx := s4.nowIdx + 1 }
    | Option.none =>
      let b1 := send_telegram_message tgOk
        ("No new updates as of " ++ w.now s4.nowIdx) s4
      { b1 with nowIdx := s4.nowIdx + 1 }
  let s6 := update_status w "idle" s5
  send_telegram_message tgOk "Script finished running." s6

/-- A concrete environment: a fresh update is detected (no stored
watermark), one spreadsheet link with one record. -/
def c2World : World where
  statusDocId := "status-doc"
  now := fun _ => "T"
  pageDate := Option.some ⟨2024, 1, 5⟩
  lastDate := Option.none
  links := ["L"]
  download := fun _ => Option.some [[("IFSC", PyValue.str "SBIN0000001")]]

/-- The store-operation trace of one pipeline run in `c2World`. -/
def c2Trace : List StoreOp :=
  storeOps (main c2World (fun _ => true) []).events

theorem dateLt_irrefl (d : Date) : dateLt d d = false := by
  simp [dateLt]

theorem dGet_setField_same (d : Doc) (k v : String) :
    dGet (setField d k v) k = Option.some v := by
  induction d with
  | nil => simp [setField, dGet]
  | cons kv rest ih =>
    obtain ⟨k1, v1⟩ := kv
    by_cases h : k1 = k
    · simp [setField, h, dGet]
    · simp [setField, h, dGet, ih]

theorem dGet_setField_other (d : Doc) (k v k2 : String) (h : k2 ≠ k) :
    dGet (setField d k v) k2 = dGet d k2 := by
  induction d with
  | nil =>
    have h2 : ¬k = k2 := fun hh => h hh.symm
    simp [setField, dGet, h2]
  | cons kv rest ih =>
    obtain ⟨k1, v1⟩ := kv
    by_cases h1 : k1 = k
    · subst h1
      have h2 : ¬k1 = k2 := fun hh => h hh.symm
      simp [setField, dGet, h2]
    · simp only [setField, if_neg h1, dGet]
      by_cases h2 : k1 = k2
      · simp [h2]
      · simp [h2, ih]

/-- C4: for every input page, `get_excel_links` returns, in document
order, exactly one URL per anchor whose href ends in `.xlsx`, each URL
being the fixed base path prefixed to only the final filename component
of the href; all other anchors (other extensions, or no href) are
excluded, and a fetch/parse error yields the empty sequence.  This is
stated as extensional equality with `linkExtractorSpec`, the definition
transcribed from the spec's words, together with the spec's worked
example. -/
theorem get_excel_links_correct :
    (∀ page, get_excel_links page = linkExtractorSpec page) ∧
    get_excel_links Option.none = [] ∧
    get_excel_links (Option.some
        [Option.some "a.xlsx", Option.some "/path/b.xlsx", Option.some "c.txt"]) =
      [BASE_URL ++ "a.xlsx", BASE_URL ++ "b.xlsx"] := by
  refine ⟨?_, rfl, rfl⟩
  intro page
  cases page with
  | none => rfl
  | some anchors =>
    induction anchors with
    | nil => rfl
    | cons a rest ih =>
      cases a with
      | none => simpa [get_excel_links, linkExtractorSpec] using ih
      | some h =>
        by_cases hx : strEndsWith h ".xlsx" = true <;>
          simp_all [get_excel_links, linkExtractorSpec]

/-- C5: for every input record and each of the nine expected fields,
a field absent from the record is stored as the empty string (never
omitted, never Python `None`), while a present field is stored as
`str` of its value. -/
theorem documentData_fields (r : Record) (df rk : String)
    (hmem : (df, rk) ∈ expectedFields) :
    (rget r rk = Option.none → dGet (documentData r) df = Option.some "") ∧
    (∀ v, rget r rk = Option.some v →
      dGet (documentData r) df = Option.some (pyStr v)) := by
  have key : dGet (documentData r) df
      = Option.some (pyStr ((rget r rk).getD (.str ""))) := by
    fin_cases hmem <;> rfl
  refine ⟨fun h => ?_, fun v h => ?_⟩
  · rw [key, h]; rfl
  · rw [key, h]; rfl

/-- Witness for C5 at a concrete record: `PHONE` is absent and stored
as `""`; `BANK` is present and stored as its text. -/
theorem documentData_fields_witness :
    dGet (documentData [("BANK", PyValue.str "HDFC")]) "PHONE" = Option.some "" ∧
    dGet (documentData [("BANK", PyValue.str "HDFC")]) "BANK" = Option.some "HDFC" := by
  constructor
  · exact (documentData_fields [("BANK", PyValue.str "HDFC")] "PHONE" "PHONE"
      (by decide)).1 (by decide)
  · exact (documentData_fields [("BANK", PyValue.str "HDFC")] "BANK" "BANK"
      (by decide)).2 (PyValue.str "HDFC") (by decide)

/-- C10: the two State Tracker writes touch disjoint fields.  A
`set_last_update_date` write sets only `last_update_date` and leaves
every other attribute (in particular `status` and `last_updated`)
unchanged; an `update_status` write sets `status` and `last_updated`
and leaves every other attribute (in particular `last_update_date`)
unchanged. -/
theorem status_writes_frame (doc : Doc) (status now : String) (d : Date)
    (k : String) :
    dGet (applyUpdate doc (set_last_update_date_data d)) "last_update_date"
      = Option.some (isoformat d) ∧
    (k ≠ "last_update_date" →
      dGet (applyUpdate doc (set_last_update_date_data d)) k = dGet doc k) ∧
    dGet (applyUpdate doc (update_status_data status now)) "status"
      = Option.some status ∧
    dGet (applyUpdate doc (update_status_data status now)) "last_updated"
      = Option.some now ∧
    (k ≠ "status" → k ≠ "last_updated" →
      dGet (applyUpdate doc (update_status_data status now)) k = dGet doc k) := by
  have e1 : applyUpdate doc (set_last_update_date_data d)
      = setField doc "last_update_date" (isoformat d) := rfl
  have e2 : applyUpdate doc (update_status_data status now)
      = setField (setField doc "status" status) "last_updated" now := rfl
  refine ⟨?_, fun h => ?_, ?_, ?_, fun h1 h2 => ?_⟩
  · rw [e1]; exact dGet_setField_same doc _ _
  · rw [e1]; exact dGet_setField_other doc _ _ _ h
  · rw [e2, dGet_setField_other _ _ _ _ (by decide)]
    exact dGet_setField_same doc _ _
  · rw [e2]; exact dGet_setField_same _ _ _
  · rw [e2, dGet_setField_other _ _ _ _ h2, dGet_setField_other _ _ _ _ h1]

/-- Witness for C10 at a concrete status document: the watermark write
leaves `status` untouched and the status write leaves
`last_update_date` untouched. -/
theorem status_writes_frame_witness :
    dGet (applyUpdate [("status", "idle"), ("last_updated", "T0"),
        ("last_update_date", "D0")] (set_last_update_date_data ⟨2024, 1, 5⟩))
      "status" = Option.some "idle" ∧
    dGet (applyUpdate [("status", "idle"), ("last_updated", "T0"),
        ("last_update_date", "D0")] (update_status_data "running" "T1"))
      "last_update_date" = Option.some "D0" := by
  constructor
  · have h := (status_writes_frame [("status", "idle"), ("last_updated", "T0"),
      ("last_update_date", "D0")] "running" "T1" ⟨2024, 1, 5⟩ "status").2.1
      (by decide)
    rw [h]; rfl
  · have h := (status_writes_frame [("status", "idle"), ("last_updated", "T0"),
      ("last_update_date", "D0")] "running" "T1" ⟨2024, 1, 5⟩
      "last_update_date").2.2.2.2 (by decide) (by decide)
    rw [h]; rfl

theorem takeDrop_append_all {α : Type} (p : α → Bool) (l1 l2 : List α)
    (h : ∀ c ∈ l1, p c = true) :
    (l1 ++ l2).takeWhile p = l1 ++ l2.takeWhile p ∧
    (l1 ++ l2).dropWhile p = l2.dropWhile p := by
  induction l1 with
  | nil => simp
  | cons c t ih =>
    have hc : p c = true := h c (by simp)
    have ih2 := ih fun x hx => h x (by simp [hx])
    simp [List.takeWhile_cons, List.dropWhile_cons, hc, ih2]

theorem takeDrop_append_stop {α : Type} (p : α → Bool) (l1 l2 : List α)
    (h : ∃ c ∈ l1, p c = false) :
    (l1 ++ l2).takeWhile p = l1.takeWhile p ∧
    (l1 ++ l2).dropWhile p = l1.dropWhile p ++ l2 ∧
    l1.dropWhile p ≠ [] := by
  induction l1 with
  | nil => simp at h
  | cons c t ih =>
    by_cases hc : p c = true
    · have h2 : ∃ x ∈ t, p x = false := by
        rcases h with ⟨x, hx, hpx⟩
        rcases List.mem_cons.mp hx with h1 | h1
        · rw [h1, hc] at hpx; cases hpx
        · exact ⟨x, h1, hpx⟩
      obtain ⟨e1, e2, e3⟩ := ih h2
      simp [List.takeWhile_cons, List.dropWhile_cons, hc, e1, e2, e3]
    · have hc2 : p c = false := by revert hc; cases p c <;> simp
      simp [List.takeWhile_cons, List.dropWhile_cons, hc2]

theorem dropWhile_cons_inv {α : Type} (p : α → Bool) (l : List α)
    (c0 : α) (t0 : List α) (h : l.dropWhile p = c0 :: t0) :
    p c0 = false ∧ ∀ x ∈ c0 :: t0, x ∈ l := by
  induction l with
  | nil => simp [List.dropWhile] at h
  | cons a t ih =>
    by_cases ha : p a = true
    · rw [List.dropWhile_cons, if_pos ha] at h
      obtain ⟨h1, h2⟩ := ih h
      exact ⟨h1, fun x hx => List.mem_cons_of_mem _ (h2 x hx)⟩
    · rw [List.dropWhile_cons, if_neg ha] at h
      have ha2 : p a = false := by revert ha; cases p a <;> simp
      cases h
      exact ⟨ha2, fun x hx => hx⟩

/-- `matchAt` fails whenever every way the word-run can end in a space
leaves no digit immediately after that space. -/
theorem matchAt_none_of_no_digit_after_space (cs : List Char)
    (h : ∀ r2, cs.dropWhile isWordChar = ' ' :: r2 →
      r2.takeWhile isDigitChar = []) :
    matchAt cs = Option.none := by
  cases hw : cs.takeWhile isWordChar with
  | nil => simp [matchAt, hw]
  | cons w0 wt =>
    cases hr : cs.dropWhile isWordChar with
    | nil => simp [matchAt, hw, hr]
    | cons a r2 =>
      by_cases ha : a = ' '
      · subst ha
        have hd := h r2 hr
        simp [matchAt, hw, hr, hd]
      · simp only [matchAt, hw, hr]
        cases a with
        | mk v hv =>
          by_cases hva : Char.mk v hv = ' '
          · exact absurd hva ha
          · simp [hva]

/-- In a region whose characters are digit-free and which is followed by
a space and then a non-digit, the date regex cannot match. -/
theorem matchAt_head_fail (h1 M : List Char)
    (hd : ∀ c ∈ h1, isDigitChar c = false)
    (hM : ∀ c, M.head? = Option.some c → isDigitChar c = false) :
    matchAt (h1 ++ ' ' :: M) = Option.none := by
  apply matchAt_none_of_no_digit_after_space
  intro r2 hr
  by_cases hall : ∃ c ∈ h1, isWordChar c = false
  · obtain ⟨_, e2, e3⟩ := takeDrop_append_stop isWordChar h1 (' ' :: M) hall
    obtain ⟨c0, t0, hct⟩ : ∃ c0 t0, h1.dropWhile isWordChar = c0 :: t0 := by
      cases hcase : h1.dropWhile isWordChar with
      | nil => exact absurd hcase e3
      | cons a b => exact ⟨a, b, rfl⟩
    obtain ⟨_, hmem⟩ := dropWhile_cons_inv isWordChar h1 c0 t0 hct
    rw [e2, hct] at hr
    simp only [List.cons_append] at hr
    obtain ⟨hc0, hr2⟩ : c0 = ' ' ∧ r2 = t0 ++ ' ' :: M := by
      cases hr; exact ⟨rfl, rfl⟩
    subst hr2
    have hspd : isDigitChar ' ' = false := by decide
    cases t0 with
    | nil => simp [List.takeWhile_cons, hspd]
    | cons a b =>
      have : isDigitChar a = false := hd a (hmem a (by simp))
      simp [List.takeWhile_cons, this]
  · have hall2 : ∀ c ∈ h1, isWordChar c = true := by
      intro c hc
      cases hw : isWordChar c with
      | false => exact absurd ⟨c, hc, hw⟩ hall
      | true => rfl
    obtain ⟨_, e2⟩ := takeDrop_append_all isWordChar h1 (' ' :: M) hall2
    have e2b : (h1 ++ ' ' :: M).dropWhile isWordChar = ' ' :: M := by
      rw [e2]; simp [List.dropWhile_cons]
      intro hsp
      cases hsp
    rw [e2b] at hr
    have hr2 : M = r2 := by injection hr
    rw [← hr2]
    cases M with
    | nil => rfl
    | cons m0 mt =>
      have : isDigitChar m0 = false := hM m0 rfl
      simp [List.takeWhile_cons, this]

/-- Scanning for the leftmost regex match skips a digit-free region that
ends just before a space followed by a non-digit. -/
theorem firstDateMatch_skip (h1 M : List Char)
    (hd : ∀ c ∈ h1, isDigitChar c = false)
    (hM : ∀ c, M.head? = Option.some c → isDigitChar c = false) :
    firstDateMatch (h1 ++ ' ' :: M) = firstDateMatch M := by
  induction h1 with
  | nil =>
    have hm := matchAt_head_fail [] M (by simp) hM
    simp only [List.nil_append] at hm ⊢
    simp [firstDateMatch, hm]
  | cons c t ih =>
    have hm := matchAt_head_fail (c :: t) M hd hM
    have ht : ∀ x ∈ t, isDigitChar x = false :=
      fun x hx => hd x (List.mem_cons_of_mem _ hx)
    simp only [List.cons_append] at hm ⊢
    simp [firstDateMatch, hm, ih ht]

/-- At the phrase itself the regex matches and captures the month token,
the day digits and the four year digits. -/
theorem matchAt_phrase (month day year post : List Char)
    (hm0 : month ≠ []) (hmw : ∀ c ∈ month, isWordChar c = true)
    (hd0 : day ≠ []) (hdd : ∀ c ∈ day, isDigitChar c = true)
    (hy : year.length = 4) (hyd : ∀ c ∈ year, isDigitChar c = true) :
    matchAt (month ++ ' ' :: (day ++ ',' :: ' ' :: (year ++ post)))
      = Option.some (month, day, year) := by
  obtain ⟨m0, mt, hmeq⟩ : ∃ m0 mt, month = m0 :: mt := by
    cases month with
    | nil => exact absurd rfl hm0
    | cons a b => exact ⟨a, b, rfl⟩
  obtain ⟨d0, dt, hdeq⟩ : ∃ d0 dt, day = d0 :: dt := by
    cases day with
    | nil => exact absurd rfl hd0
    | cons a b => exact ⟨a, b, rfl⟩
  obtain ⟨y1, y2, y3, y4, hyeq⟩ : ∃ y1 y2 y3 y4, year = [y1, y2, y3, y4] := by
    rcases year with _ | ⟨a, _ | ⟨b, _ | ⟨c, _ | ⟨d, _ | ⟨e, tail⟩⟩⟩⟩⟩ <;>
      simp at hy
    exact ⟨a, b, c, d, rfl⟩
  obtain ⟨e1, e2⟩ := takeDrop_append_all isWordChar month
    (' ' :: (day ++ ',' :: ' ' :: (year ++ post))) hmw
  have hsp : isWordChar ' ' = false := by decide
  have e1b : (month ++ ' ' :: (day ++ ',' :: ' ' :: (year ++ post))).takeWhile
      isWordChar = month := by
    rw [e1]; simp [List.takeWhile_cons, hsp]
  have e2b : (month ++ ' ' :: (day ++ ',' :: ' ' :: (year ++ post))).dropWhile
      isWordChar = ' ' :: (day ++ ',' :: ' ' :: (year ++ post)) := by
    rw [e2]; simp [List.dropWhile_cons, hsp]
  obtain ⟨f1, f2⟩ := takeDrop_append_all isDigitChar day
    (',' :: ' ' :: (year ++ post)) hdd
  have hcm : isDigitChar ',' = false := by decide
  have f1b : (day ++ ',' :: ' ' :: (year ++ post)).takeWhile isDigitChar
      = day := by
    rw [f1]; simp [List.takeWhile_cons, hcm]
  have f2b : (day ++ ',' :: ' ' :: (year ++ post)).dropWhile isDigitChar
      = ',' :: ' ' :: (year ++ post) := by
    rw [f2]; simp [List.dropWhile_cons, hcm]
  have hy1 : isDigitChar y1 = true := hyd y1 (by simp [hyeq])
  have hy2 : isDigitChar y2 = true := hyd y2 (by simp [hyeq])
  have hy3 : isDigitChar y3 = true := hyd y3 (by simp [hyeq])
  have hy4 : isDigitChar y4 = true := hyd y4 (by simp [hyeq])
  subst hmeq hdeq hyeq
  simp only [List.cons_append, List.nil_append] at e1b e2b f1b f2b
  simp only [matchAt, List.cons_append, List.nil_append, e1b, e2b, f1b, f2b]
  simp [hy1, hy2, hy3, hy4]

theorem isPrefixOfB_self_append (n b : List Char) :
    isPrefixOfB n (n ++ b) = true := by
  induction n with
  | nil => rfl
  | cons c t ih => simp [isPrefixOfB, ih]

theorem containsSub_of_isPrefix (needle l : List Char)
    (h : isPrefixOfB needle l = true) : containsSub needle l = true := by
  cases l with
  | nil =>
    cases needle with
    | nil => rfl
    | cons c t => simp [isPrefixOfB] at h
  | cons c t => simp [containsSub, h]

theorem containsSub_cons_of (needle : List Char) (c : Char) (cs : List Char)
    (h : containsSub needle cs = true) : containsSub needle (c :: cs) = true := by
  simp [containsSub, h]

theorem containsSub_append (needle a b : List Char) :
    containsSub needle (a ++ (needle ++ b)) = true := by
  induction a with
  | nil =>
    simp only [List.nil_append]
    exact containsSub_of_isPrefix _ _ (isPrefixOfB_self_append needle b)
  | cons c t ih =>
    simp only [List.cons_append]
    exact containsSub_cons_of _ _ _ ih

/-- C3 counterexample: a status page containing the phrase
"updated as on January 5, 2024" (valid English month name) for which
`get_update_date` returns March 3, 2020 — the first date-shaped
substring of the containing text node — rather than the date encoded in
the phrase.  Mirrors CPython: `re.search` over the whole node text
finds "March 3, 2020" first. -/
theorem get_update_date_literal_counterexample :
    containsSub ("updated as on January 5, 2024".data)
      ("From March 3, 2020 updated as on January 5, 2024".data) = true ∧
    get_update_date
      (Option.some ["From March 3, 2020 updated as on January 5, 2024".data])
      = Option.some ⟨2020, 3, 3⟩ ∧
    (⟨2020, 3, 3⟩ : Date) ≠ ⟨2024, 1, 5⟩ := by
  refine ⟨by decide, by decide, by decide⟩

/-- `find?` selects the first element satisfying the predicate: all
earlier elements fail it. -/
theorem find?_first {α : Type} (p : α → Bool) (pre post : List α) (x : α)
    (hpre : ∀ t ∈ pre, p t = false) (hx : p x = true) :
    (pre ++ x :: post).find? p = Option.some x := by
  induction pre with
  | nil => simp [List.find?, hx]
  | cons a t ih =>
    have ha := hpre a (by simp)
    simp [List.find?, ha, ih fun u hu => hpre u (by simp [hu])]

/-- C3 amended: on every status page — any list of text nodes — whose
first text node containing "updated as on" consists of a digit-free
prefix directly followed by the phrase
"updated as on <Month> <Day>, <Year>" (so the phrase's day digits are
the first digits of that node), with a month token accepted by `%B`, a
day accepted by `%d`, a four-digit year ≥ 1 and a day valid for that
month, `get_update_date` returns exactly the calendar date literally
encoded in the phrase.  Nodes before the phrase-bearing one are
arbitrary except that they do not contain the phrase; nodes after it
are unconstrained. -/
theorem get_update_date_literal (preNodes postNodes : List (List Char))
    (pre month day year post : List Char)
    (hskip : ∀ t ∈ preNodes, containsSub updatePhrase t = false)
    (hpre : ∀ c ∈ pre, isDigitChar c = false)
    (hm0 : month ≠ []) (hmw : ∀ c ∈ month, isWordChar c = true)
    (hmd : ∀ c ∈ month, isDigitChar c = false)
    (hd0 : day ≠ []) (hdd : ∀ c ∈ day, isDigitChar c = true)
    (hy : year.length = 4) (hyd : ∀ c ∈ year, isDigitChar c = true)
    (mv dv yv : Nat)
    (hpm : parseMonth month = Option.some mv)
    (hpd : parseDay day = Option.some dv)
    (hpy : parseYear year = Option.some yv)
    (hval : dv ≤ daysInMonth yv mv) :
    get_update_date (Option.some
      (preNodes ++
        ((pre ++ updatePhrase) ++
          ' ' :: (month ++ ' ' :: (day ++ ',' :: ' ' :: (year ++ post)))) ::
        postNodes))
      = Option.some ⟨yv, mv, dv⟩ := by
  obtain ⟨m0, mt, hmeq⟩ : ∃ m0 mt, month = m0 :: mt := by
    cases month with
    | nil => exact absurd rfl hm0
    | cons a b => exact ⟨a, b, rfl⟩
  have hcont : containsSub updatePhrase
      ((pre ++ updatePhrase) ++
        ' ' :: (month ++ ' ' :: (day ++ ',' :: ' ' :: (year ++ post))))
      = true := by
    have := containsSub_append updatePhrase pre
      (' ' :: (month ++ ' ' :: (day ++ ',' :: ' ' :: (year ++ post))))
    simpa [List.append_assoc] using this
  have hhead : ∀ c ∈ pre ++ updatePhrase, isDigitChar c = false := by
    intro c hc
    rcases List.mem_append.mp hc with h | h
    · exact hpre c h
    · revert h
      have : ∀ c ∈ updatePhrase, isDigitChar c = false := by decide
      exact this c
  have hMhead : ∀ c,
      (month ++ ' ' :: (day ++ ',' :: ' ' :: (year ++ post))).head?
        = Option.some c → isDigitChar c = false := by
    intro c hc
    rw [hmeq] at hc
    simp only [List.cons_append, List.head?] at hc
    cases hc
    exact hmd m0 (by simp [hmeq])
  have hscan : firstDateMatch
      ((pre ++ updatePhrase) ++
        ' ' :: (month ++ ' ' :: (day ++ ',' :: ' ' :: (year ++ post))))
      = Option.some (month, day, year) := by
    rw [firstDateMatch_skip (pre ++ updatePhrase) _ hhead hMhead]
    have hma := matchAt_phrase month day year post hm0 hmw hd0 hdd hy hyd
    rw [hmeq]
    rw [hmeq] at hma
    simp only [List.cons_append] at hma ⊢
    simp [firstDateMatch, hma]
  have hfind : (preNodes ++
      ((pre ++ updatePhrase) ++
        ' ' :: (month ++ ' ' :: (day ++ ',' :: ' ' :: (year ++ post)))) ::
      postNodes).find? (fun t => containsSub updatePhrase t)
      = Option.some ((pre ++ updatePhrase) ++
        ' ' :: (month ++ ' ' :: (day ++ ',' :: ' ' :: (year ++ post)))) :=
    find?_first _ preNodes postNodes _ hskip hcont
  simp only [get_update_date, hfind, hscan, strptimeBDY, hpm, hpd, hpy]
  simp [hval]

/-- Witness for C3's amended statement at a concrete multi-node page:
two phrase-free nodes (one containing digits), the phrase-bearing
node, and a trailing node. -/
theorem get_update_date_literal_witness :
    get_update_date (Option.some
      (["Reserve Bank of India".data, "Page 3 of 10".data] ++
        (("The list of bank branches was ".data ++ updatePhrase) ++
          ' ' :: ("January".data ++
            ' ' :: ("5".data ++ ',' :: ' ' :: ("2024".data ++ ".".data)))) ::
        ["Generated 2024".data]))
      = Option.some ⟨2024, 1, 5⟩ :=
  get_update_date_literal
    ["Reserve Bank of India".data, "Page 3 of 10".data]
    ["Generated 2024".data]
    "The list of bank branches was ".data
    "January".data "5".data "2024".data ".".data
    (by decide) (by decide) (by decide) (by decide) (by decide) (by decide)
    (by decide) (by decide) (by decide) 1 5 2024 (by decide) (by decide)
    (by decide) (by decide)

/-- C6: `get_update_date` is a total function returning the "no date"
sentinel (`Option.none`, the script's `None`) on every failure path:
failed HTTP fetch, no text node containing the freshness phrase, no
date-shaped substring in the found node (the `.group(1)` on a failed
search), and an unparseable captured date (the caught strptime
`ValueError`).  Totality of the model is the "never raises" part. -/
theorem get_update_date_soft_fail :
    get_update_date Option.none = Option.none ∧
    (∀ texts, (∀ t ∈ texts, containsSub updatePhrase t = false) →
      get_update_date (Option.some texts) = Option.none) ∧
    (∀ texts t,
      texts.find? (fun u => containsSub updatePhrase u) = Option.some t →
      firstDateMatch t = Option.none →
      get_update_date (Option.some texts) = Option.none) ∧
    (∀ texts t m d y,
      texts.find? (fun u => containsSub updatePhrase u) = Option.some t →
      firstDateMatch t = Option.some (m, d, y) →
      strptimeBDY m d y = Option.none →
      get_update_date (Option.some texts) = Option.none) := by
  refine ⟨rfl, ?_, ?_, ?_⟩
  · intro texts h
    have hn : texts.find? (fun u => containsSub updatePhrase u)
        = Option.none := by
      rw [List.find?_eq_none]
      intro x hx
      simp [h x hx]
    simp [get_update_date, hn]
  · intro texts t hf hm
    simp [get_update_date, hf, hm]
  · intro texts t m d y hf hm hs
    simp [get_update_date, hf, hm, hs]

/-- Witness for C6 on concrete failing inputs: a page without the
phrase, a phrase with no date-shaped text, an abbreviated month name,
and an impossible calendar date. -/
theorem get_update_date_soft_fail_witness :
    get_update_date (Option.some ["no marker here".data]) = Option.none ∧
    get_update_date (Option.some ["updated as on someday".data]) = Option.none ∧
    get_update_date (Option.some ["updated as on Jan 5, 2024".data])
      = Option.none ∧
    get_update_date (Option.some ["updated as on February 30, 2024".data])
      = Option.none := by
  refine ⟨?_, ?_, ?_, ?_⟩
  · exact get_update_date_soft_fail.2.1 ["no marker here".data] (by decide)
  · exact get_update_date_soft_fail.2.2.1 ["updated as on someday".data]
      "updated as on someday".data (by decide) (by decide)
  · exact get_update_date_soft_fail.2.2.2 ["updated as on Jan 5, 2024".data]
      "updated as on Jan 5, 2024".data "Jan".data "5".data "2024".data
      (by decide) (by decide) (by decide)
  · exact get_update_date_soft_fail.2.2.2
      ["updated as on February 30, 2024".data]
      "updated as on February 30, 2024".data "February".data "30".data
      "2024".data (by decide) (by decide) (by decide)

theorem dGet_documentData_ifsc (r : Record) :
    dGet (documentData r) "IFSC" = Option.some (ifscOf r) := rfl

theorem countMatching_append (st : List Doc) (d : Doc) (v : String) :
    countMatching (st ++ [d]) v =
      countMatching st v
        + (if dGet d "IFSC" = Option.some v then 1 else 0) := by
  rw [countMatching, countMatching, List.filter_append, List.length_append]
  congr 1
  by_cases h : dGet d "IFSC" = Option.some v <;>
    simp [List.filter_cons, h]

theorem insert_count_eq_creates (data : List Record) :
    ∀ st : List Doc,
      (insert_into_appwrite data st).count
        = countCreates (insert_into_appwrite data st).ops := by
  induction data with
  | nil => intro st; rfl
  | cons r rest ih =>
    intro st
    by_cases hc : countMatching st (ifscOf r) = 0
    · simp [insert_into_appwrite, hc, countCreates, List.filter_cons, isCreateOp]
      simpa [countCreates] using ih (st ++ [documentData r])
    · simp [insert_into_appwrite, hc, countCreates, List.filter_cons, isCreateOp]
      simpa [countCreates] using ih st

theorem countMatching_pos_stable (v : String) (data : List Record) :
    ∀ st : List Doc, 0 < countMatching st v →
      countMatching (insert_into_appwrite data st).store v = countMatching st v ∧
      createsFor v (insert_into_appwrite data st).ops = 0 := by
  induction data with
  | nil => intro st _; exact ⟨rfl, rfl⟩
  | cons r rest ih =>
    intro st h
    by_cases hc : countMatching st (ifscOf r) = 0
    · have hkv : ¬ifscOf r = v := fun he => by rw [he] at hc; omega
      have hd : ¬dGet (documentData r) "IFSC" = Option.some v := by
        simp [dGet_documentData_ifsc, hkv]
      have hstore : countMatching (st ++ [documentData r]) v
          = countMatching st v := by
        rw [countMatching_append, if_neg hd]
        omega
      have hpos2 : 0 < countMatching (st ++ [documentData r]) v := by
        rw [hstore]; exact h
      obtain ⟨ih1, ih2⟩ := ih _ hpos2
      constructor
      · simp [insert_into_appwrite, hc]
        rw [ih1, hstore]
      · simp [insert_into_appwrite, hc, createsFor, List.filter_cons, hd]
        simpa [createsFor] using ih2
    · obtain ⟨ih1, ih2⟩ := ih st h
      constructor
      · simpa [insert_into_appwrite, hc] using ih1
      · simp [insert_into_appwrite, hc, createsFor, List.filter_cons]
        simpa [createsFor] using ih2

theorem countMatching_zero_insert (v : String) (data : List Record) :
    ∀ st : List Doc, countMatching st v = 0 → v ∈ data.map ifscOf →
      countMatching (insert_into_appwrite data st).store v = 1 ∧
      createsFor v (insert_into_appwrite data st).ops = 1 := by
  induction data with
  | nil => intro st _ hmem; simp at hmem
  | cons r rest ih =>
    intro st h0 hmem
    by_cases hrv : ifscOf r = v
    · have hc : countMatching st (ifscOf r) = 0 := by rw [hrv]; exact h0
      have hd : dGet (documentData r) "IFSC" = Option.some v := by
        rw [dGet_documentData_ifsc, hrv]
      have hstore : countMatching (st ++ [documentData r]) v = 1 := by
        rw [countMatching_append, if_pos hd, h0]
      have hpos : 0 < countMatching (st ++ [documentData r]) v := by
        rw [hstore]; omega
      obtain ⟨s1, s2⟩ := countMatching_pos_stable v rest _ hpos
      constructor
      · simp [insert_into_appwrite, hc]
        rw [s1, hstore]
      · simp [insert_into_appwrite, hc, createsFor, List.filter_cons, hd]
        simpa [createsFor] using s2
    · have hmem2 : v ∈ rest.map ifscOf := by
        rcases List.mem_map.mp hmem with ⟨x, hx, hxv⟩
        rcases List.mem_cons.mp hx with h1 | h1
        · exact absurd (h1 ▸ hxv) hrv
        · exact List.mem_map.mpr ⟨x, h1, hxv⟩
      by_cases hc : countMatching st (ifscOf r) = 0
      · have hd : ¬dGet (documentData r) "IFSC" = Option.some v := by
          simp [dGet_documentData_ifsc, hrv]
        have hst2 : countMatching (st ++ [documentData r]) v = 0 := by
          rw [countMatching_append, if_neg hd, h0]
        obtain ⟨i1, i2⟩ := ih _ hst2 hmem2
        constructor
        · simpa [insert_into_appwrite, hc] using i1
        · simp [insert_into_appwrite, hc, createsFor, List.filter_cons, hd]
          simpa [createsFor] using i2
      · obtain ⟨i1, i2⟩ := ih st h0 hmem2
        constructor
        · simpa [insert_into_appwrite, hc] using i1
        · simp [insert_into_appwrite, hc, createsFor, List.filter_cons]
          simpa [createsFor] using i2

theorem insert_allpresent (data : List Record) :
    ∀ st : List Doc,
      (∀ r ∈ data, 0 < countMatching st (ifscOf r)) →
      (insert_into_appwrite data st).count = 0 ∧
      (insert_into_appwrite data st).store = st ∧
      countCreates (insert_into_appwrite data st).ops = 0 := by
  induction data with
  | nil => intro st _; exact ⟨rfl, rfl, rfl⟩
  | cons r rest ih =>
    intro st h
    have hr := h r (by simp)
    have hc : ¬countMatching st (ifscOf r) = 0 := by omega
    obtain ⟨i1, i2, i3⟩ := ih st (fun x hx => h x (by simp [hx]))
    refine ⟨?_, ?_, ?_⟩
    · simpa [insert_into_appwrite, hc] using i1
    · simpa [insert_into_appwrite, hc] using i2
    · simp [insert_into_appwrite, hc, countCreates, List.filter_cons, isCreateOp]
      simpa [countCreates] using i3

/-- C1: running `insert_into_appwrite` twice on the same record set,
starting from a store holding none of its natural keys (`IFSC`
values), creates exactly one document per distinct key in the first
run (the returned count being exactly the number of creates performed)
and, on the second run, returns 0 and performs no create-document
operation. -/
theorem insert_into_appwrite_idempotent (data : List Record) (st0 : List Doc)
    (habsent : ∀ r ∈ data, countMatching st0 (ifscOf r) = 0) :
    (∀ v ∈ data.map ifscOf,
      createsFor v (insert_into_appwrite data st0).ops = 1) ∧
    (insert_into_appwrite data st0).count
      = countCreates (insert_into_appwrite data st0).ops ∧
    (insert_into_appwrite data (insert_into_appwrite data st0).store).count
      = 0 ∧
    countCreates
      (insert_into_appwrite data (insert_into_appwrite data st0).store).ops
      = 0 := by
  have hper : ∀ v ∈ data.map ifscOf,
      countMatching (insert_into_appwrite data st0).store v = 1 ∧
      createsFor v (insert_into_appwrite data st0).ops = 1 := by
    intro v hv
    rcases List.mem_map.mp hv with ⟨r, hr, hrv⟩
    exact countMatching_zero_insert v data st0 (hrv ▸ habsent r hr) hv
  have hall : ∀ r ∈ data,
      0 < countMatching (insert_into_appwrite data st0).store (ifscOf r) := by
    intro r hr
    have h1 := (hper (ifscOf r) (List.mem_map.mpr ⟨r, hr, rfl⟩)).1
    omega
  obtain ⟨a1, _, a3⟩ := insert_allpresent data _ hall
  exact ⟨fun v hv => (hper v hv).2, insert_count_eq_creates data st0, a1, a3⟩

/-- Witness for C1: three records, two sharing the key "A", against an
empty store: the first run creates "A" once and "B" once and returns
2; the second run returns 0 with no creates. -/
theorem insert_into_appwrite_idempotent_witness :
    (∀ v ∈ ([[("IFSC", PyValue.str "A")], [("IFSC", PyValue.str "A")],
        [("IFSC", PyValue.str "B")]] : List Record).map ifscOf,
      createsFor v (insert_into_appwrite [[("IFSC", PyValue.str "A")],
        [("IFSC", PyValue.str "A")], [("IFSC", PyValue.str "B")]] []).ops = 1) ∧
    (insert_into_appwrite [[("IFSC", PyValue.str "A")],
      [("IFSC", PyValue.str "A")], [("IFSC", PyValue.str "B")]] []).count
      = countCreates (insert_into_appwrite [[("IFSC", PyValue.str "A")],
        [("IFSC", PyValue.str "A")], [("IFSC", PyValue.str "B")]] []).ops ∧
    (insert_into_appwrite [[("IFSC", PyValue.str "A")],
      [("IFSC", PyValue.str "A")], [("IFSC", PyValue.str "B")]]
      (insert_into_appwrite [[("IFSC", PyValue.str "A")],
        [("IFSC", PyValue.str "A")], [("IFSC", PyValue.str "B")]] []).store).count
      = 0 ∧
    countCreates (insert_into_appwrite [[("IFSC", PyValue.str "A")],
      [("IFSC", PyValue.str "A")], [("IFSC", PyValue.str "B")]]
      (insert_into_appwrite [[("IFSC", PyValue.str "A")],
        [("IFSC", PyValue.str "A")], [("IFSC", PyValue.str "B")]] []).store).ops
      = 0 :=
  insert_into_appwrite_idempotent
    [[("IFSC", PyValue.str "A")], [("IFSC", PyValue.str "A")],
      [("IFSC", PyValue.str "B")]] [] (by decide)

/-- C7: per-record failures are skipped and the batch continues.  A run
with failure injection produces exactly the store and count of a
failure-free run on the surviving records (so every record after a
failing one is still processed, and a failing record contributes
nothing), and the returned count is exactly the number of
create-document operations performed in the batch. -/
theorem insertWithFailures_skips (data : List Record) :
    ∀ (fails : Nat → Bool) (st : List Doc),
      (insertWithFailures data fails st).store
        = (insert_into_appwrite (survivors data fails) st).store ∧
      (insertWithFailures data fails st).count
        = (insert_into_appwrite (survivors data fails) st).count ∧
      (insertWithFailures data fails st).count
        = countCreates (insertWithFailures data fails st).ops := by
  induction data with
  | nil => intro fails st; exact ⟨rfl, rfl, rfl⟩
  | cons r rest ih =>
    intro fails st
    cases hf : fails 0 with
    | true =>
      simpa [insertWithFailures, survivors, hf] using ih (fun i => fails (i + 1)) st
    | false =>
      by_cases hc : countMatching st (ifscOf r) = 0
      · obtain ⟨i1, i2, i3⟩ := ih (fun i => fails (i + 1)) (st ++ [documentData r])
        refine ⟨?_, ?_, ?_⟩
        · simpa [insertWithFailures, survivors, hf, insert_into_appwrite, hc]
            using i1
        · simpa [insertWithFailures, survivors, hf, insert_into_appwrite, hc]
            using i2
        · simp [insertWithFailures, survivors, hf, hc, countCreates,
            List.filter_cons, isCreateOp]
          simpa [countCreates] using i3
      · obtain ⟨i1, i2, i3⟩ := ih (fun i => fails (i + 1)) st
        refine ⟨?_, ?_, ?_⟩
        · simpa [insertWithFailures, survivors, hf, insert_into_appwrite, hc]
            using i1
        · simpa [insertWithFailures, survivors, hf, insert_into_appwrite, hc]
            using i2
        · simp [insertWithFailures, survivors, hf, hc, countCreates,
            List.filter_cons, isCreateOp]
          simpa [countCreates] using i3

@[simp]
theorem storeOps_nil : storeOps [] = [] := rfl

@[simp]
theorem storeOps_append (a b : List Event) :
    storeOps (a ++ b) = storeOps a ++ storeOps b :=
  List.filterMap_append a b _

@[simp]
theorem storeOps_tg (m : String) (d : Bool) (es : List Event) :
    storeOps (Event.tg m d :: es) = storeOps es := rfl

@[simp]
theorem storeOps_http (u : String) (es : List Event) :
    storeOps (Event.httpFetch u :: es) = storeOps es := rfl

@[simp]
theorem storeOps_store (op : StoreOp) (es : List Event) :
    storeOps (Event.store op :: es) = op :: storeOps es := rfl

@[simp]
theorem storeOps_map_store (ops : List StoreOp) :
    storeOps (ops.map Event.store) = ops := by
  induction ops with
  | nil => rfl
  | cons op rest ih => simp [ih]

theorem insert_ops_not_wm (data : List Record) :
    ∀ st op, op ∈ (insert_into_appwrite data st).ops → isWMOp op = false := by
  induction data with
  | nil => intro st op h; simp [insert_into_appwrite] at h
  | cons r rest ih =>
    intro st op h
    by_cases hc : countMatching st (ifscOf r) = 0 <;>
      simp only [insert_into_appwrite, hc, if_pos, if_neg, not_false_iff,
        List.mem_cons, ite_true, ite_false] at h
    · rcases h with h1 | h1 | h1
      · simp [h1, isWMOp]
      · simp [h1, isWMOp]
      · exact ih _ op h1
    · rcases h with h1 | h1
      · simp [h1, isWMOp]
      · exact ih _ op h1

theorem processLinks_cons_some (w : World) (tgOk : Nat → Bool) (link : String)
    (rest : List String) (s : MainState) (data : List Record)
    (hdl : w.download link = Option.some data) :
    processLinks w tgOk (link :: rest) s = processLinks w tgOk rest
      { events := s.events ++
          (Event.tg ("Processing file: " ++ link) (tgOk s.tgIdx) ::
            Event.httpFetch link ::
            ((insert_into_appwrite data s.store).ops.map Event.store ++
              [Event.tg ("Completed processing " ++ link ++
                  ". New records added: "
                  ++ toString (insert_into_appwrite data s.store).count)
                (tgOk (s.tgIdx + 1))])),
        store := (insert_into_appwrite data s.store).store,
        tgIdx := s.tgIdx + 2,
        nowIdx := s.nowIdx } := by
  simp [processLinks, hdl, send_telegram_message, emit, List.append_assoc]

theorem processLinks_cons_none (w : World) (tgOk : Nat → Bool) (link : String)
    (rest : List String) (s : MainState)
    (hdl : w.download link = Option.none) :
    processLinks w tgOk (link :: rest) s = processLinks w tgOk rest
      { events := s.events ++
          [Event.tg ("Processing file: " ++ link) (tgOk s.tgIdx),
            Event.httpFetch link,
            Event.tg ("Failed to download file: " ++ link) (tgOk (s.tgIdx + 1))],
        store := s.store,
        tgIdx := s.tgIdx + 2,
        nowIdx := s.nowIdx } := by
  simp [processLinks, hdl, send_telegram_message, emit, List.append_assoc]

/-- The per-file loop only appends events; the store operations it adds
are the ingestion ops (existence checks and creates) — never a
watermark write — and it never consumes a `datetime.now()`. -/
theorem processLinks_storeOps_shape (w : World) (tgOk : Nat → Bool)
    (links : List String) :
    ∀ s : MainState, ∃ extra : List StoreOp,
      storeOps (processLinks w tgOk links s).events
        = storeOps s.events ++ extra ∧
      (∀ op ∈ extra, isWMOp op = false) ∧
      (processLinks w tgOk links s).nowIdx = s.nowIdx := by
  induction links with
  | nil =>
    intro s
    exact ⟨[], by simp [processLinks], by simp, rfl⟩
  | cons link rest ih =>
    intro s
    cases hdl : w.download link with
    | some data =>
      rw [processLinks_cons_some w tgOk link rest s data hdl]
      obtain ⟨extra, he, hw, hn⟩ := ih
        { events := s.events ++
            (Event.tg ("Processing file: " ++ link) (tgOk s.tgIdx) ::
              Event.httpFetch link ::
              ((insert_into_appwrite data s.store).ops.map Event.store ++
                [Event.tg ("Completed processing " ++ link ++
                    ". New records added: "
                    ++ toString (insert_into_appwrite data s.store).count)
                  (tgOk (s.tgIdx + 1))])),
          store := (insert_into_appwrite data s.store).store,
          tgIdx := s.tgIdx + 2,
          nowIdx := s.nowIdx }
      refine ⟨(insert_into_appwrite data s.store).ops ++ extra, ?_, ?_, hn⟩
      · rw [he]; simp
      · intro op hop
        rcases List.mem_append.mp hop with h1 | h1
        · exact insert_ops_not_wm data s.store op h1
        · exact hw op h1
    | none =>
      rw [processLinks_cons_none w tgOk link rest s hdl]
      obtain ⟨extra, he, hw, hn⟩ := ih
        { events := s.events ++
            [Event.tg ("Processing file: " ++ link) (tgOk s.tgIdx),
              Event.httpFetch link,
              Event.tg ("Failed to download file: " ++ link) (tgOk (s.tgIdx + 1))],
          store := s.store,
          tgIdx := s.tgIdx + 2,
          nowIdx := s.nowIdx }
      refine ⟨extra, ?_, hw, hn⟩
      rw [he]; simp

theorem any_isWM_false (l : List StoreOp) (h : ∀ op ∈ l, isWMOp op = false) :
    l.any isWMOp = false := by
  rw [List.any_eq_false]
  intro x hx
  simp [h x hx]

theorem noCreateBeforeWM_of_noWM (l : List StoreOp)
    (h : ∀ op ∈ l, isWMOp op = false) : noCreateBeforeWM l = true := by
  induction l with
  | nil => rfl
  | cons op rest ih =>
    have h2 : ∀ x ∈ rest, isWMOp x = false := fun x hx => h x (by simp [hx])
    simp [noCreateBeforeWM, any_isWM_false rest h2, ih h2]

theorem noCreateBeforeWM_cons_notCreate (op : StoreOp) (l : List StoreOp)
    (h : isCreateOp op = false) :
    noCreateBeforeWM (op :: l) = noCreateBeforeWM l := by
  simp [noCreateBeforeWM, h]

@[simp]
theorem send_events (tgOk : Nat → Bool) (m : String) (s : MainState) :
    (send_telegram_message tgOk m s).events
      = s.events ++ [Event.tg m (tgOk s.tgIdx)] := rfl

@[simp]
theorem send_store (tgOk : Nat → Bool) (m : String) (s : MainState) :
    (send_telegram_message tgOk m s).store = s.store := rfl

@[simp]
theorem send_nowIdx (tgOk : Nat → Bool) (m : String) (s : MainState) :
    (send_telegram_message tgOk m s).nowIdx = s.nowIdx := rfl

@[simp]
theorem send_tgIdx (tgOk : Nat → Bool) (m : String) (s : MainState) :
    (send_telegram_message tgOk m s).tgIdx = s.tgIdx + 1 := rfl

@[simp]
theorem update_status_events (w : World) (st : String) (s : MainState) :
    (update_status w st s).events = s.events ++
      [Event.store (.updateDoc w.statusDocId
        (update_status_data st (w.now s.nowIdx)))] := rfl

@[simp]
theorem update_status_store (w : World) (st : String) (s : MainState) :
    (update_status w st s).store = s.store := rfl

@[simp]
theorem update_status_nowIdx (w : World) (st : String) (s : MainState) :
    (update_status w st s).nowIdx = s.nowIdx + 1 := rfl

@[simp]
theorem update_status_tgIdx (w : World) (st : String) (s : MainState) :
    (update_status w st s).tgIdx = s.tgIdx := rfl

@[simp]
theorem set_last_update_date_events (w : World) (d : Date) (s : MainState) :
    (set_last_update_date w d s).events = s.events ++
      [Event.store (.updateDoc w.statusDocId (set_last_update_date_data d))] := rfl

@[simp]
theorem set_last_update_date_store (w : World) (d : Date) (s : MainState) :
    (set_last_update_date w d s).store = s.store := rfl

@[simp]
theorem set_last_update_date_nowIdx (w : World) (d : Date) (s : MainState) :
    (set_last_update_date w d s).nowIdx = s.nowIdx := rfl

@[simp]
theorem set_last_update_date_tgIdx (w : World) (d : Date) (s : MainState) :
    (set_last_update_date w d s).tgIdx = s.tgIdx := rfl

@[simp]
theorem emit_events (e : Event) (s : MainState) :
    (emit e s).events = s.events ++ [e] := rfl

@[simp]
theorem emit_store (e : Event) (s : MainState) :
    (emit e s).store = s.store := rfl

@[simp]
theorem emit_nowIdx (e : Event) (s : MainState) :
    (emit e s).nowIdx = s.nowIdx := rfl

@[simp]
theorem emit_tgIdx (e : Event) (s : MainState) :
    (emit e s).tgIdx = s.tgIdx := rfl

/-- C8: when the scraped update date equals the stored watermark, the
run performs exactly: status := running, the date scrape, the watermark
read, a "no new updates" notification, status := idle, and the final
notification — in particular it writes no watermark, fetches no links,
downloads nothing, creates no documents, and leaves the record store
untouched. -/
theorem main_no_new_update (w : World) (tgOk : Nat → Bool) (st0 : List Doc)
    (d : Date) (hpage : w.pageDate = Option.some d)
    (hlast : w.lastDate = Option.some d) :
    (main w tgOk st0).events =
      [Event.store (.updateDoc w.statusDocId
          (update_status_data "running" (w.now 0))),
       Event.tg "Script started running." (tgOk 0),
       Event.httpFetch MAIN_URL,
       Event.store (.getDoc w.statusDocId),
       Event.tg ("No new updates as of " ++ w.now 1) (tgOk 1),
       Event.store (.updateDoc w.statusDocId
          (update_status_data "idle" (w.now 2))),
       Event.tg "Script finished running." (tgOk 2)] ∧
    (main w tgOk st0).store = st0 := by
  constructor <;>
    simp [main, hpage, hlast, dateLt_irrefl]

/-- Witness for C8 in a concrete environment whose page date equals the
stored watermark. -/
theorem main_no_new_update_witness :
    (main
      { statusDocId := "S", now := fun _ => "T",
        pageDate := Option.some ⟨2024, 1, 5⟩,
        lastDate := Option.some ⟨2024, 1, 5⟩,
        links := ["L"],
        download := fun _ => Option.none }
      (fun _ => true) []).events =
      [Event.store (.updateDoc "S" (update_status_data "running" "T")),
       Event.tg "Script started running." true,
       Event.httpFetch MAIN_URL,
       Event.store (.getDoc "S"),
       Event.tg ("No new updates as of " ++ "T") true,
       Event.store (.updateDoc "S" (update_status_data "idle" "T")),
       Event.tg "Script finished running." true] := by
  exact (main_no_new_update
    { statusDocId := "S", now := fun _ => "T",
      pageDate := Option.some ⟨2024, 1, 5⟩,
      lastDate := Option.some ⟨2024, 1, 5⟩,
      links := ["L"],
      download := fun _ => Option.none }
    (fun _ => true) [] ⟨2024, 1, 5⟩ rfl rfl).1

/-- C2 counterexample: in a concrete run that detects a newer update
and inserts one record, the trace contains a watermark write and a
create-document, and the watermark write PRECEDES the create: `main`
calls `set_last_update_date` immediately after detection, before any
file is fetched or any record inserted, contradicting the claimed
ordering (ingестion first, watermark last). -/
theorem main_watermark_order_counterexample :
    c2Trace.any isWMOp = true ∧
    c2Trace.any isCreateOp = true ∧
    noWMBeforeCreate c2Trace = false := by
  refine ⟨by decide, by decide, by decide⟩

/-- Trace shape of the update branch of `main`: the status write and
watermark read come first, then the watermark write, and everything
after it (ingestion ops and the idle status write) contains no further
watermark write; hence no create precedes a watermark write. -/
theorem mainThenBranch_trace (w : World) (tgOk : Nat → Bool)
    (st0 : List Doc) (cur : Date) :
    ∃ rest : List StoreOp,
      storeOps (send_telegram_message tgOk "Script finished running."
        (update_status w "idle"
          (send_telegram_message tgOk "All files processed."
            (processLinks w tgOk w.links
              (emit (.httpFetch MAIN_URL)
                (set_last_update_date w cur
                  (send_telegram_message tgOk
                      ("New update found: " ++ isoformat cur)
                    (emit (.store (.getDoc w.statusDocId))
                      (emit (.httpFetch MAIN_URL)
                        (send_telegram_message tgOk "Script started running."
                          (update_status w "running"
                            { events := [], store := st0, tgIdx := 0,
                              nowIdx := 0 }))))))))))).events
        = StoreOp.updateDoc w.statusDocId
            (update_status_data "running" (w.now 0)) ::
          StoreOp.getDoc w.statusDocId ::
          StoreOp.updateDoc w.statusDocId (set_last_update_date_data cur) ::
          rest ∧
      (∀ op ∈ rest, isWMOp op = false) ∧
      noCreateBeforeWM
        (storeOps (send_telegram_message tgOk "Script finished running."
          (update_status w "idle"
            (send_telegram_message tgOk "All files processed."
              (processLinks w tgOk w.links
                (emit (.httpFetch MAIN_URL)
                  (set_last_update_date w cur
                    (send_telegram_message tgOk
                        ("New update found: " ++ isoformat cur)
                      (emit (.store (.getDoc w.statusDocId))
                        (emit (.httpFetch MAIN_URL)
                          (send_telegram_message tgOk "Script started running."
                            (update_status w "running"
                              { events := [], store := st0, tgIdx := 0,
                                nowIdx := 0 }))))))))))).events) = true := by
  obtain ⟨extra, he, hw, hn⟩ := processLinks_storeOps_shape w tgOk w.links
    (emit (.httpFetch MAIN_URL)
      (set_last_update_date w cur
        (send_telegram_message tgOk ("New update found: " ++ isoformat cur)
          (emit (.store (.getDoc w.statusDocId))
            (emit (.httpFetch MAIN_URL)
              (send_telegram_message tgOk "Script started running."
                (update_status w "running"
                  { events := [], store := st0, tgIdx := 0, nowIdx := 0 })))))))
  have hidle : isWMOp (StoreOp.updateDoc w.statusDocId
      (update_status_data "idle" (w.now 1))) = false := by
    have h1 : (("status" : String) == "last_update_date") = false := by decide
    have h2 : (("last_updated" : String) == "last_update_date") = false := by decide
    simp [isWMOp, update_status_data, h1, h2]
  have hfull : storeOps (send_telegram_message tgOk "Script finished running."
      (update_status w "idle"
        (send_telegram_message tgOk "All files processed."
          (processLinks w tgOk w.links
            (emit (.httpFetch MAIN_URL)
              (set_last_update_date w cur
                (send_telegram_message tgOk
                    ("New update found: " ++ isoformat cur)
                  (emit (.store (.getDoc w.statusDocId))
                    (emit (.httpFetch MAIN_URL)
                      (send_telegram_message tgOk "Script started running."
                        (update_status w "running"
                          { events := [], store := st0, tgIdx := 0,
                            nowIdx := 0 }))))))))))).events
      = StoreOp.updateDoc w.statusDocId
          (update_status_data "running" (w.now 0)) ::
        StoreOp.getDoc w.statusDocId ::
        StoreOp.updateDoc w.statusDocId (set_last_update_date_data cur) ::
        (extra ++ [StoreOp.updateDoc w.statusDocId
          (update_status_data "idle" (w.now 1))]) := by
    simp [he, hn]
  have hrest : ∀ op ∈ extra ++ [StoreOp.updateDoc w.statusDocId
      (update_status_data "idle" (w.now 1))], isWMOp op = false := by
    intro op hop
    rcases List.mem_append.mp hop with h1 | h1
    · exact hw op h1
    · rcases List.mem_singleton.mp h1 with rfl
      exact hidle
  refine ⟨extra ++ [StoreOp.updateDoc w.statusDocId
      (update_status_data "idle" (w.now 1))], hfull, hrest, ?_⟩
  rw [hfull]
  rw [noCreateBeforeWM_cons_notCreate
    (StoreOp.updateDoc w.statusDocId (update_status_data "running" (w.now 0)))
    _ rfl]
  rw [noCreateBeforeWM_cons_notCreate (StoreOp.getDoc w.statusDocId) _ rfl]
  rw [noCreateBeforeWM_cons_notCreate
    (StoreOp.updateDoc w.statusDocId (set_last_update_date_data cur)) _ rfl]
  exact noCreateBeforeWM_of_noWM _ hrest

/-- C2 amended: in every run that detects a newer update, the trace of
store operations starts with the running-status write, the watermark
read and then the watermark write, and no create-document operation is
followed by a watermark write — i.e. the watermark write PRECEDES all
record insertions of the run (the reverse of the spec's claimed
ordering, which the counterexample refutes). -/
theorem main_watermark_precedes_inserts (w : World) (tgOk : Nat → Bool)
    (st0 : List Doc) (cur : Date)
    (hpage : w.pageDate = Option.some cur)
    (hdet : newUpdateDetected w.pageDate w.lastDate = true) :
    ∃ rest : List StoreOp,
      storeOps (main w tgOk st0).events =
        StoreOp.updateDoc w.statusDocId
          (update_status_data "running" (w.now 0)) ::
        StoreOp.getDoc w.statusDocId ::
        StoreOp.updateDoc w.statusDocId (set_last_update_date_data cur) ::
        rest ∧
      (∀ op ∈ rest, isWMOp op = false) ∧
      noCreateBeforeWM (storeOps (main w tgOk st0).events) = true := by
  cases hl : w.lastDate with
  | none =>
    simp only [main, hpage, hl, reduceIte]
    exact mainThenBranch_trace w tgOk st0 cur
  | some l =>
    have hlt : dateLt l cur = true := by
      simpa [newUpdateDetected, hpage, hl] using hdet
    simp only [main, hpage, hl, hlt, reduceIte]
    exact mainThenBranch_trace w tgOk st0 cur

/-- Witness for C2's amended statement in the concrete environment. -/
theorem main_watermark_precedes_inserts_witness :
    ∃ rest : List StoreOp,
      storeOps (main c2World (fun _ => true) []).events =
        StoreOp.updateDoc c2World.statusDocId
          (update_status_data "running" (c2World.now 0)) ::
        StoreOp.getDoc c2World.statusDocId ::
        StoreOp.updateDoc c2World.statusDocId
          (set_last_update_date_data ⟨2024, 1, 5⟩) ::
        rest ∧
      (∀ op ∈ rest, isWMOp op = false) ∧
      noCreateBeforeWM (storeOps (main c2World (fun _ => true) []).events)
        = true :=
  main_watermark_precedes_inserts c2World (fun _ => true) [] ⟨2024, 1, 5⟩
    rfl rfl

/-- The per-file loop's store evolution and store-operation trace do
not depend on which Telegram deliveries succeed: two runs from states
with equal stores perform the same store operations and end with the
same store. -/
theorem processLinks_tg_rel (w : World) (links : List String) :
    ∀ (tg1 tg2 : Nat → Bool) (s1 s2 : MainState),
      s1.store = s2.store →
      (processLinks w tg1 links s1).store
        = (processLinks w tg2 links s2).store ∧
      (processLinks w tg1 links s1).nowIdx = s1.nowIdx ∧
      (processLinks w tg2 links s2).nowIdx = s2.nowIdx ∧
      ∃ extra : List StoreOp,
        storeOps (processLinks w tg1 links s1).events
          = storeOps s1.events ++ extra ∧
        storeOps (processLinks w tg2 links s2).events
          = storeOps s2.events ++ extra := by
  induction links with
  | nil =>
    intro tg1 tg2 s1 s2 h
    exact ⟨h, rfl, rfl, [], by simp [processLinks], by simp [processLinks]⟩
  | cons link rest ih =>
    intro tg1 tg2 s1 s2 h
    cases hdl : w.download link with
    | some data =>
      rw [processLinks_cons_some w tg1 link rest s1 data hdl,
          processLinks_cons_some w tg2 link rest s2 data hdl]
      obtain ⟨o1, o2, o3, extra, e1, e2⟩ := ih tg1 tg2
        { events := s1.events ++
            (Event.tg ("Processing file: " ++ link) (tg1 s1.tgIdx) ::
              Event.httpFetch link ::
              ((insert_into_appwrite data s1.store).ops.map Event.store ++
                [Event.tg ("Completed processing " ++ link ++
                    ". New records added: "
                    ++ toString (insert_into_appwrite data s1.store).count)
                  (tg1 (s1.tgIdx + 1))])),
          store := (insert_into_appwrite data s1.store).store,
          tgIdx := s1.tgIdx + 2,
          nowIdx := s1.nowIdx }
        { events := s2.events ++
            (Event.tg ("Processing file: " ++ link) (tg2 s2.tgIdx) ::
              Event.httpFetch link ::
              ((insert_into_appwrite data s2.store).ops.map Event.store ++
                [Event.tg ("Completed processing " ++ link ++
                    ". New records added: "
                    ++ toString (insert_into_appwrite data s2.store).count)
                  (tg2 (s2.tgIdx + 1))])),
          store := (insert_into_appwrite data s2.store).store,
          tgIdx := s2.tgIdx + 2,
          nowIdx := s2.nowIdx }
        (by simp only [h])
      refine ⟨o1, o2, o3, (insert_into_appwrite data s1.store).ops ++ extra,
        ?_, ?_⟩
      · rw [e1]; simp [List.append_assoc]
      · rw [e2]; simp only [← h]; simp [List.append_assoc]
    | none =>
      rw [processLinks_cons_none w tg1 link rest s1 hdl,
          processLinks_cons_none w tg2 link rest s2 hdl]
      obtain ⟨o1, o2, o3, extra, e1, e2⟩ := ih tg1 tg2
        { events := s1.events ++
            [Event.tg ("Processing file: " ++ link) (tg1 s1.tgIdx),
              Event.httpFetch link,
              Event.tg ("Failed to download file: " ++ link) (tg1 (s1.tgIdx + 1))],
          store := s1.store,
          tgIdx := s1.tgIdx + 2,
          nowIdx := s1.nowIdx }
        { events := s2.events ++
            [Event.tg ("Processing file: " ++ link) (tg2 s2.tgIdx),
              Event.httpFetch link,
              Event.tg ("Failed to download file: " ++ link) (tg2 (s2.tgIdx + 1))],
          store := s2.store,
          tgIdx := s2.tgIdx + 2,
          nowIdx := s2.nowIdx }
        (by simp only [h])
      refine ⟨o1, o2, o3, extra, ?_, ?_⟩
      · rw [e1]; simp
      · rw [e2]; simp

/-- The update branch of `main` performs the same store operations and
ends with the same store under any two delivery oracles. -/
theorem mainThenBranch_tg_rel (w : World) (tg1 tg2 : Nat → Bool)
    (st0 : List Doc) (cur : Date) :
    storeOps (send_telegram_message tg1 "Script finished running."
      (update_status w "idle"
        (send_telegram_message tg1 "All files processed."
          (processLinks w tg1 w.links
            (emit (.httpFetch MAIN_URL)
              (set_last_update_date w cur
                (send_telegram_message tg1
                    ("New update found: " ++ isoformat cur)
                  (emit (.store (.getDoc w.statusDocId))
                    (emit (.httpFetch MAIN_URL)
                      (send_telegram_message tg1 "Script started running."
                        (update_status w "running"
                          { events := [], store := st0, tgIdx := 0,
                            nowIdx := 0 }))))))))))).events
      = storeOps (send_telegram_message tg2 "Script finished running."
        (update_status w "idle"
          (send_telegram_message tg2 "All files processed."
            (processLinks w tg2 w.links
              (emit (.httpFetch MAIN_URL)
                (set_last_update_date w cur
                  (send_telegram_message tg2
                      ("New update found: " ++ isoformat cur)
                    (emit (.store (.getDoc w.statusDocId))
                      (emit (.httpFetch MAIN_URL)
                        (send_telegram_message tg2 "Script started running."
                          (update_status w "running"
                            { events := [], store := st0, tgIdx := 0,
                              nowIdx := 0 }))))))))))).events ∧
    (send_telegram_message tg1 "Script finished running."
      (update_status w "idle"
        (send_telegram_message tg1 "All files processed."
          (processLinks w tg1 w.links
            (emit (.httpFetch MAIN_URL)
              (set_last_update_date w cur
                (send_telegram_message tg1
                    ("New update found: " ++ isoformat cur)
                  (emit (.store (.getDoc w.statusDocId))
                    (emit (.httpFetch MAIN_URL)
                      (send_telegram_message tg1 "Script started running."
                        (update_status w "running"
                          { events := [], store := st0, tgIdx := 0,
                            nowIdx := 0 }))))))))))).store
      = (send_telegram_message tg2 "Script finished running."
        (update_status w "idle"
          (send_telegram_message tg2 "All files processed."
            (processLinks w tg2 w.links
              (emit (.httpFetch MAIN_URL)
                (set_last_update_date w cur
                  (send_telegram_message tg2
                      ("New update found: " ++ isoformat cur)
                    (emit (.store (.getDoc w.statusDocId))
                      (emit (.httpFetch MAIN_URL)
                        (send_telegram_message tg2 "Script started running."
                          (update_status w "running"
                            { events := [], store := st0, tgIdx := 0,
                              nowIdx := 0 }))))))))))).store := by
  obtain ⟨o1, o2, o3, extra, e1, e2⟩ := processLinks_tg_rel w w.links tg1 tg2
    (emit (.httpFetch MAIN_URL)
      (set_last_update_date w cur
        (send_telegram_message tg1 ("New update found: " ++ isoformat cur)
          (emit (.store (.getDoc w.statusDocId))
            (emit (.httpFetch MAIN_URL)
              (send_telegram_message tg1 "Script started running."
                (update_status w "running"
                  { events := [], store := st0, tgIdx := 0, nowIdx := 0 })))))))
    (emit (.httpFetch MAIN_URL)
      (set_last_update_date w cur
        (send_telegram_message tg2 ("New update found: " ++ isoformat cur)
          (emit (.store (.getDoc w.statusDocId))
            (emit (.httpFetch MAIN_URL)
              (send_telegram_message tg2 "Script started running."
                (update_status w "running"
                  { events := [], store := st0, tgIdx := 0, nowIdx := 0 })))))))
    rfl
  constructor
  · simp [e1, e2, o2, o3]
  · simp [o1]

/-- C9: notification delivery never alters control flow.  For any
environment, the sequence of document-store operations performed by a
pipeline run — status writes, watermark writes, existence checks,
inserts — and the resulting store are identical whether every Telegram
send succeeds, every send fails, or any mixture occurs. -/
theorem main_notifications_pure_observability (w : World) (st0 : List Doc)
    (tg1 tg2 : Nat → Bool) :
    storeOps (main w tg1 st0).events = storeOps (main w tg2 st0).events ∧
    (main w tg1 st0).store = (main w tg2 st0).store := by
  cases hp : w.pageDate with
  | none =>
    constructor <;> simp [main, hp]
  | some cur =>
    cases hl : w.lastDate with
    | none =>
      simp only [main, hp, hl, reduceIte]
      exact mainThenBranch_tg_rel w tg1 tg2 st0 cur
    | some l =>
      cases hlt : dateLt l cur with
      | false =>
        constructor <;> simp [main, hp, hl, hlt]
      | true =>
        simp only [main, hp, hl, hlt, reduceIte]
        exact mainThenBranch_tg_rel w tg1 tg2 st0 cur

end IfscDb
